import Mathlib

/-!
Verification development for the web content retrieval pipeline of the
`web-search-skill` repository, embedding the functions of
`src/skills/web-search/scripts/web_search.py` (text extraction, URL
fetching, search, and the search-and-fetch orchestrator) as executable
Lean definitions, followed by theorems settling the specification claims.

Strings are modelled as `List Char`.
-/

namespace WebSearch

/-- Whitespace predicate modelling Python's `str.isspace` / regex `\s`
(ASCII whitespace plus the common Unicode space characters). -/
def pyIsSpace (c : Char) : Bool :=
  c = ' ' || c = '\t' || c = '\n' || c = '\x0b' || c = '\x0c' || c = '\r' ||
  c = '\x1c' || c = '\x1d' || c = '\x1e' || c = '\x1f' || c = '\x85' || c = '\xa0' ||
  c = ' ' || (0x2000 ≤ c.toNat && c.toNat ≤ 0x200a) ||
  c = ' ' || c = ' ' || c = ' ' || c = ' ' || c = '　'

/-- Line-boundary characters recognised by Python's `str.splitlines`. -/
def isLineBreak (c : Char) : Bool :=
  c = '\n' || c = '\r' || c = '\x0b' || c = '\x0c' ||
  c = '\x1c' || c = '\x1d' || c = '\x1e' || c = '\x85' ||
  c = ' ' || c = ' '

/-- Python `str.strip()`: drop whitespace from both ends. -/
def pyStrip (l : List Char) : List Char :=
  ((l.dropWhile pyIsSpace).reverse.dropWhile pyIsSpace).reverse

/-- One-character-at-a-time scanner for Python `str.splitlines()`:
`acc` holds the current line reversed, and `sawCR` records that the
previous character was a line-ending `\r`, so that an immediately
following `\n` is swallowed (the `\r\n` combination is one boundary).
A trailing boundary does not produce an extra empty line. -/
def slGo : Bool → List Char → List Char → List (List Char)
  | _, acc, [] => if acc.isEmpty then [] else [acc.reverse]
  | sawCR, acc, c :: rest =>
    if sawCR && c = '\n' then slGo false acc rest
    else if c = '\r' then acc.reverse :: slGo true [] rest
    else if isLineBreak c then acc.reverse :: slGo false [] rest
    else slGo false (c :: acc) rest

/-- Python `str.splitlines()`: split on line boundaries, treating `\r\n`
as a single boundary; the empty string yields no lines. -/
def pySplitlines (s : List Char) : List (List Char) := slGo false [] s

/-- One-character-at-a-time scanner for Python `str.split("  ")`:
`acc` holds the current piece reversed, `pend` records a single pending
space; a second consecutive space completes the `"  "` separator, while
a pending space followed by anything else is flushed into the piece. -/
def stsGo : Bool → List Char → List Char → List (List Char)
  | pend, acc, [] => [(if pend then ' ' :: acc else acc).reverse]
  | pend, acc, c :: rest =>
    if c = ' ' then
      if pend then acc.reverse :: stsGo false [] rest
      else stsGo true acc rest
    else stsGo false (c :: (if pend then ' ' :: acc else acc)) rest

/-- Python `str.split("  ")`: split on each non-overlapping occurrence of
two consecutive spaces, scanning left to right; `"".split("  ") == [""]`. -/
def splitTwoSpaces (s : List Char) : List (List Char) := stsGo false [] s

/-- State machine for `re.sub(r'<[^>]+>', '', s)`: when the first argument
is `some buf`, we are inside a candidate match that began with `<` and
`buf` holds (reversed) the characters seen since that `<`. A `>` with a
non-empty buffer completes the match and the whole span is dropped; a `>`
straight after `<` means the candidate failed (`[^>]+` needs at least one
character) and both characters are emitted literally; an unclosed
candidate at the end of input is emitted literally. -/
def stripGo : Option (List Char) → List Char → List Char
  | none, [] => []
  | none, '<' :: rest => stripGo (some []) rest
  | none, c :: rest => c :: stripGo none rest
  | some buf, [] => '<' :: buf.reverse
  | some buf, '>' :: rest =>
    if buf.isEmpty then '<' :: '>' :: stripGo none rest
    else stripGo none rest
  | some buf, c :: rest => stripGo (some (c :: buf)) rest

/-- Python `re.sub(r'<[^>]+>', '', s)`: remove every `<...>` span that
contains at least one character, none of which is `>`. -/
def stripTagsRegex (l : List Char) : List Char := stripGo none l

/-- State machine for `re.sub(r'\s+', ' ', s)`: the flag records whether
we are currently inside a whitespace run (already replaced by one space). -/
def collapseWsGo : Bool → List Char → List Char
  | _, [] => []
  | inWs, c :: rest =>
    if pyIsSpace c then
      if inWs then collapseWsGo true rest
      else ' ' :: collapseWsGo true rest
    else c :: collapseWsGo false rest

/-- Python `re.sub(r'\s+', ' ', s)`: replace each maximal whitespace run
by a single space. -/
def collapseWs (l : List Char) : List Char := collapseWsGo false l

/-- The fixed truncation marker appended by `extract_text_from_html`
when the text exceeds `max_length`: `"\n\n[Content truncated...]"`. -/
def truncMarker : List Char := "\n\n[Content truncated...]".toList

/-- The length limit of `extract_text_from_html`: if the text is longer
than `max_length`, keep the first `max_length` characters and append the
truncation marker. -/
def applyLimit (maxLength : Nat) (t : List Char) : List Char :=
  if maxLength < t.length then t.take maxLength ++ truncMarker else t

/-- The whitespace clean-up of `extract_text_from_html` (lines 58-61):
`lines = (line.strip() for line in text.splitlines())`,
`chunks = (phrase.strip() for line in lines for phrase in line.split("  "))`,
`'\n'.join(chunk for chunk in chunks if chunk)` — the chunk list. -/
def collapseChunks (t : List Char) : List (List Char) :=
  (((pySplitlines t).map pyStrip).map
    (fun line => (splitTwoSpaces line).map pyStrip)).flatten

/-- Python `'\n'.join`: concatenate the pieces with a single newline
between consecutive pieces. -/
def joinNL : List (List Char) → List Char
  | [] => []
  | [c] => c
  | c :: cs => c ++ '\n' :: joinNL cs

/-- The whitespace clean-up of `extract_text_from_html`: join the
non-empty chunks with single newlines. -/
def collapseText (t : List Char) : List Char :=
  joinNL ((collapseChunks t).filter (fun c => !c.isEmpty))

/-- `true` iff the list contains two consecutive newline characters:
the formal reading of "blank-line run". -/
def hasNN : List Char → Bool
  | a :: b :: rest => (a = '\n' && b = '\n') || hasNN (b :: rest)
  | _ => false

/-- Number of positions at which `pat` occurs in `l` (as a contiguous
sub-sequence). -/
def occCount (pat l : List Char) : Nat :=
  (List.range (l.length + 1)).countP (fun p => pat.isPrefixOf (l.drop p))

/-- `true` iff `pat` occurs somewhere in `l` as a contiguous
sub-sequence: the formal reading of "the message contains ...". -/
def hasSub (pat l : List Char) : Bool :=
  (List.range (l.length + 1)).any (fun p => pat.isPrefixOf (l.drop p))

mutual

/-- Parsed HTML document node, the tree produced by the HTML parser
(`BeautifulSoup(html, 'html.parser')`): either a text node or an element
with a tag name and children. -/
inductive Html where
  | text (s : List Char)
  | elem (tag : List Char) (children : HtmlList)

/-- Children sequence of an HTML element. -/
inductive HtmlList where
  | nil
  | cons (h : Html) (t : HtmlList)

end

/-- The tags removed before text extraction (line 52 of web_search.py):
`soup(["script", "style", "nav", "footer", "header"])` followed by
`decompose()`. -/
def bannedTags : List (List Char) :=
  ["script".toList, "style".toList, "nav".toList, "footer".toList, "header".toList]

mutual

/-- `soup.get_text()` on a node: concatenation of all text nodes in
document order. -/
def getTextH : Html → List Char
  | .text s => s
  | .elem _ cs => getTextL cs

/-- `get_text` over a children sequence. -/
def getTextL : HtmlList → List Char
  | .nil => []
  | .cons h t => getTextH h ++ getTextL t

end

mutual

/-- `decompose()` of every script/style/nav/footer/header element: a
banned element disappears entirely (with all its text), any other node
is kept with its children filtered recursively. -/
def stripBannedH : Html → List Html
  | .text s => [.text s]
  | .elem tag cs => if tag ∈ bannedTags then [] else [.elem tag (stripBannedL cs)]

/-- `decompose` of banned elements over a children sequence. -/
def stripBannedL : HtmlList → HtmlList
  | .nil => .nil
  | .cons h t =>
    match stripBannedH h with
    | [] => stripBannedL t
    | h' :: _ => .cons h' (stripBannedL t)

end

/-- Text of the document after banned-element removal: what
`soup.get_text()` returns at line 56 after the `decompose` loop. -/
def visibleText (doc : Html) : List Char :=
  match stripBannedH doc with
  | [] => []
  | h :: _ => getTextH h

mutual

/-- `soup.find('title')`: the first `title` element in document order,
returning its `get_text()`. -/
def findTitleH : Html → Option (List Char)
  | .text _ => none
  | .elem tag cs => if tag = "title".toList then some (getTextL cs) else findTitleL cs

/-- `find('title')` over a children sequence. -/
def findTitleL : HtmlList → Option (List Char)
  | .nil => none
  | .cons h t =>
    match findTitleH h with
    | some r => some r
    | none => findTitleL t

end

/-- `extract_text_from_html` (lines 44-67), main path: the HTML parser is
available, so the document tree is cleaned of banned elements, its text
is collapsed, and the length limit with truncation marker is applied. -/
def extract_text_from_html (doc : Html) (maxLength : Nat) : List Char :=
  applyLimit maxLength (collapseText (visibleText doc))

/-- `extract_text_from_html` (lines 69-81), fallback path taken when
BeautifulSoup is unavailable: strip `<[^>]+>` spans from the raw HTML
string, collapse whitespace runs to single spaces, strip, then apply the
same length limit and truncation marker. -/
def fallback_extract (html : List Char) (maxLength : Nat) : List Char :=
  applyLimit maxLength (pyStrip (collapseWs (stripTagsRegex html)))

/-- An HTTP response as seen by `fetch_url_content` through the httpx
client: status code, reason phrase, the `content-type` header lookup,
the body both as raw text and as its parse tree. -/
structure HttpResponse where
  status_code : Nat
  reason_phrase : List Char
  content_type : List Char
  bodyRaw : List Char
  bodyDoc : Html

/-- The exceptions the `except` block of `fetch_url_content`
distinguishes: `httpx.HTTPStatusError` (carrying the response's status
code and reason phrase), `httpx.TimeoutException`, and any other
exception (carrying its class name and message). -/
inductive FetchExc where
  | httpStatus (status : Nat) (reason : List Char)
  | timedOut
  | otherExc (clsName msg : List Char)

/-- What one `client.get(url, ...)` call produces: a response, or a
raised exception. -/
inductive NetOutcome where
  | ok (resp : HttpResponse)
  | exc (e : FetchExc)

/-- The dictionary `fetch_url_content` returns; a field is `none` when
the Python dict does not carry the corresponding key. -/
structure FetchResult where
  success : Bool
  url : List Char
  error : Option (List Char)
  title : Option (List Char)
  content_type : Option (List Char)
  text_content : Option (List Char)
  text_length : Option Nat
  status_code : Option Nat
  html_content : Option (List Char)

/-- The error message of the invalid-URL early return (line 107). -/
def invalidUrlMsg : List Char := "URL must start with http:// or https://".toList

/-- The URL validation of line 104:
`url.startswith(('http://', 'https://'))`. -/
def validScheme (url : List Char) : Bool :=
  ("http://".toList).isPrefixOf url || ("https://".toList).isPrefixOf url

/-- `f"HTTP error {e.response.status_code}: {e.response.reason_phrase}"`. -/
def httpErrorMsg (status : Nat) (reason : List Char) : List Char :=
  ("HTTP error ".toList) ++ (toString status).toList ++ (": ".toList) ++ reason

/-- The timeout error message (line 173). -/
def timeoutMsg : List Char := "Request timed out (30 seconds)".toList

/-- The `except` block of `fetch_url_content` (lines 156-181): an
`httpx.HTTPStatusError` yields a failure with the status code set and the
code and reason phrase in the message; an `httpx.TimeoutException` yields
a failure naming the 30-second bound and no status code; any other
exception yields `f"{error_type}: {str(e)}"` and no status code. -/
def classifyFetchExc (url : List Char) : FetchExc → FetchResult
  | .httpStatus s r =>
    { success := false, url := url, error := some (httpErrorMsg s r),
      title := none, content_type := none, text_content := none,
      text_length := none, status_code := some s, html_content := none }
  | .timedOut =>
    { success := false, url := url, error := some timeoutMsg,
      title := none, content_type := none, text_content := none,
      text_length := none, status_code := none, html_content := none }
  | .otherExc c msg =>
    { success := false, url := url, error := some (c ++ (": ".toList) ++ msg),
      title := none, content_type := none, text_content := none,
      text_length := none, status_code := none, html_content := none }

/-- `fetch_url_content` (lines 84-181). The network is an oracle
`net : url → NetOutcome` standing for the single `client.get` call; the
second component of the result counts how many network calls were made.
A URL that does not start with `http://` or `https://` is rejected
before any network call. `response.raise_for_status()` raises an
`httpx.HTTPStatusError` whenever the status is not a success (2xx)
status. On success the title comes from the first `<title>` element
(stripped) with placeholder `"No title"`, the text from
`extract_text_from_html`, and `text_length` is the length of that text. -/
def fetch_url_content (url : List Char) (includeHtml : Bool) (maxLength : Nat)
    (net : List Char → NetOutcome) : FetchResult × Nat :=
  if validScheme url then
    match net url with
    | .exc e => (classifyFetchExc url e, 1)
    | .ok resp =>
      if resp.status_code < 200 || 300 ≤ resp.status_code then
        (classifyFetchExc url (.httpStatus resp.status_code resp.reason_phrase), 1)
      else
        let title := ((findTitleH resp.bodyDoc).map pyStrip).getD ("No title".toList)
        let text := extract_text_from_html resp.bodyDoc maxLength
        ({ success := true, url := url, error := none, title := some title,
           content_type := some resp.content_type, text_content := some text,
           text_length := some text.length, status_code := some resp.status_code,
           html_content := if includeHtml then some (resp.bodyRaw.take maxLength) else none },
         1)
  else
    ({ success := false, url := url, error := some invalidUrlMsg,
       title := none, content_type := none, text_content := none,
       text_length := none, status_code := none, html_content := none }, 0)

/-- A raw result dictionary produced by the search engine client
(`ddgs.text`); a field is `none` when the dict lacks the key. -/
structure RawResult where
  title : Option (List Char)
  body : Option (List Char)
  href : Option (List Char)

/-- What the `with DDGS() as ddgs: list(ddgs.text(query, max_results))`
block produces: an `ImportError` (ddgs not installed), some other
exception with its message, or a list of result dictionaries. -/
inductive DdgOutcome where
  | importErr
  | raised (msg : List Char)
  | ok (rs : List RawResult)

/-- A formatted search result (lines 209-214): 1-based index, with the
dictionary-lookup defaults for missing keys. -/
structure SearchItem where
  index : Nat
  title : List Char
  snippet : List Char
  link : List Char

/-- The dictionary `ddg_web_search` returns. -/
structure SearchResp where
  success : Bool
  query : List Char
  error : Option (List Char)
  result_count : Option Nat
  results : Option (List SearchItem)

/-- The specific error message for the missing ddgs dependency
(line 226). -/
def ddgsMissingMsg : List Char :=
  "ddgs library not installed. Please install it with: pip install ddgs".toList

/-- The result-formatting loop of `ddg_web_search` (lines 207-214):
1-based enumeration with per-key defaults. -/
def formatResults : Nat → List RawResult → List SearchItem
  | _, [] => []
  | idx, r :: rs =>
    { index := idx, title := r.title.getD ("No title".toList),
      snippet := r.body.getD ("No snippet".toList),
      link := r.href.getD ("No link".toList) } :: formatResults (idx + 1) rs

/-- `ddg_web_search` (lines 184-240). The engine oracle stands for the
`ddgs.text` call and receives the clamped `min(max_results, 10)`. An
`ImportError` is answered with the specific actionable message, any
other exception with its own message; both as failure dictionaries,
never as a raised exception. -/
def ddg_web_search (query : List Char) (maxResults : Nat)
    (engine : List Char → Nat → DdgOutcome) : SearchResp :=
  match engine query (min maxResults 10) with
  | .importErr =>
    { success := false, query := query, error := some ddgsMissingMsg,
      result_count := none, results := none }
  | .raised m =>
    { success := false, query := query, error := some m,
      result_count := none, results := none }
  | .ok rs =>
    let fr := formatResults 1 rs
    { success := true, query := query, error := none,
      result_count := some fr.length, results := some fr }

/-- One element of the `fetched_content` list built by
`search_and_fetch` (lines 277-285); every key is always present. -/
structure FetchedEntry where
  index : Nat
  url : List Char
  title : List Char
  text_content : List Char
  text_length : Nat
  fetch_success : Bool
  error : Option (List Char)

/-- Building one `fetched_content` entry from the dictionary returned by
`fetch_url_content` (lines 277-285): `.get` defaults `"No title"`, `""`,
`0`, `False`, `None`. -/
def entryOfContent (idx : Nat) (url : List Char) (content : FetchResult) : FetchedEntry :=
  { index := idx, url := url,
    title := content.title.getD ("No title".toList),
    text_content := content.text_content.getD [],
    text_length := content.text_length.getD 0,
    fetch_success := content.success,
    error := content.error }

/-- One iteration of the fetch loop: fetch the URL (with
`include_html` left at its default `False`) and format the entry. -/
def mkEntry (idx : Nat) (url : List Char) (maxLength : Nat)
    (net : List Char → NetOutcome) : FetchedEntry :=
  entryOfContent idx url (fetch_url_content url false maxLength net).1

/-- The fetch loop of `search_and_fetch` (lines 272-285):
`for idx, url in enumerate(urls_to_fetch, 1)`, appending one entry per
URL in order. -/
def fetchLoop (maxLength : Nat) (net : List Char → NetOutcome) :
    Nat → List (List Char) → List FetchedEntry
  | _, [] => []
  | idx, u :: us => mkEntry idx u maxLength net :: fetchLoop maxLength net (idx + 1) us

/-- The dictionary `search_and_fetch` returns on the success path
(lines 287-294). -/
structure RetrievalReport where
  success : Bool
  query : List Char
  search_results : SearchResp
  fetched_content : List FetchedEntry
  total_results : Nat
  fetched_count : Nat

/-- The two shapes `search_and_fetch` can return: the search failure
dictionary passed through unchanged, or the composed report. -/
inductive SFResult where
  | searchFailure (r : SearchResp)
  | report (d : RetrievalReport)

/-- `search_and_fetch` (lines 243-294): search first; a failed search is
returned unchanged; otherwise select the links of the first `top_n`
results, fetch each in order, and assemble the report with
`success: True`. -/
def search_and_fetch (query : List Char) (maxResults topN maxLength : Nat)
    (engine : List Char → Nat → DdgOutcome)
    (net : List Char → NetOutcome) : SFResult :=
  let sr := ddg_web_search query maxResults engine
  if sr.success then
    let results := sr.results.getD []
    let urls := (results.take topN).map (fun r => r.link)
    let fetched := fetchLoop maxLength net 1 urls
    .report { success := true, query := query, search_results := sr,
              fetched_content := fetched, total_results := results.length,
              fetched_count := fetched.length }
  else .searchFailure sr

/-- Duration of the fetch phase of `search_and_fetch`. Modelled from the
code's loop at lines 272-285: each `fetch_url_content` is awaited before
the next iteration starts, so the loop's elapsed time is the sum of the
individual fetch durations `dur url` (there is no `asyncio.gather` or
task fan-out in `search_and_fetch`). -/
def fetchPhaseDuration (dur : List Char → Nat) : List (List Char) → Nat
  | [] => 0
  | u :: us => dur u + fetchPhaseDuration dur us

/-- Elapsed time of the fetch phase of a `search_and_fetch` call, under
the sequential-loop timing model of `fetchPhaseDuration`. -/
def search_and_fetch_time (query : List Char) (maxResults topN : Nat)
    (engine : List Char → Nat → DdgOutcome) (dur : List Char → Nat) : Nat :=
  let sr := ddg_web_search query maxResults engine
  if sr.success then
    fetchPhaseDuration dur (((sr.results.getD []).take topN).map (fun r => r.link))
  else 0

/-! Concrete sample inputs used to instantiate the theorems below. -/

/-- Sample query. -/
def q0 : List Char := "batteries".toList

/-- A URL with a scheme other than http/https (spec scenario B). -/
def urlFtp : List Char := "ftp://example.com".toList

/-- Sample http URLs. -/
def urlA : List Char := "http://a.example".toList

/-- Second sample URL. -/
def urlB : List Char := "http://b.example".toList

/-- Third sample URL. -/
def urlC : List Char := "http://c.example".toList

/-- Sample page: title `T`, a script, and a paragraph (spec scenario C). -/
def doc0 : Html :=
  .elem ("html".toList)
    (.cons (.elem ("head".toList)
      (.cons (.elem ("title".toList) (.cons (.text ("T".toList)) .nil)) .nil))
    (.cons (.elem ("body".toList)
      (.cons (.elem ("script".toList) (.cons (.text ("x".toList)) .nil))
      (.cons (.elem ("p".toList) (.cons (.text ("Hello   World".toList)) .nil)) .nil)))
    .nil))

/-- Sample successful response carrying `doc0`. -/
def resp0 : HttpResponse :=
  { status_code := 200, reason_phrase := "OK".toList,
    content_type := "text/html".toList,
    bodyRaw := "<html>...</html>".toList, bodyDoc := doc0 }

/-- Sample network oracle: `urlA` succeeds, `urlB` answers 404, any
other URL times out. -/
def net0 : List Char → NetOutcome := fun u =>
  if u = urlA then .ok resp0
  else if u = urlB then .exc (.httpStatus 404 ("Not Found".toList))
  else .exc .timedOut

/-- Network oracle on which every request times out. -/
def netTimeout : List Char → NetOutcome := fun _ => .exc .timedOut

/-- Sample engine oracle answering three results linking to
`urlA`, `urlB`, `urlC`. -/
def engine3 : List Char → Nat → DdgOutcome := fun _ _ =>
  .ok [ { title := some ("A".toList), body := some ("sa".toList), href := some urlA },
        { title := none, body := none, href := some urlB },
        { title := some ("C".toList), body := none, href := some urlC } ]

/-- Engine oracle whose import fails (ddgs not installed). -/
def engineNoDep : List Char → Nat → DdgOutcome := fun _ _ => .importErr

/-- Engine oracle raising a generic exception. -/
def engineBoom : List Char → Nat → DdgOutcome := fun _ _ => .raised ("boom".toList)

/-- Constant 30-second fetch duration: every fetch takes exactly the
timeout bound. -/
def dur30 : List Char → Nat := fun _ => 30

/-! Helper lemmas. -/

theorem isPrefixOf_append_self (p b : List Char) : p.isPrefixOf (p ++ b) = true := by
  induction p with
  | nil => simp [List.isPrefixOf]
  | cons a p ih => simp [List.isPrefixOf, ih]

theorem hasSub_of_mid (p a b : List Char) : hasSub p (a ++ (p ++ b)) = true := by
  have hlen : a.length < (a ++ (p ++ b)).length + 1 := by
    simp [List.length_append]
    omega
  have hdrop : (a ++ (p ++ b)).drop a.length = p ++ b := List.drop_left a (p ++ b)
  simp only [hasSub, List.any_eq_true]
  exact ⟨a.length, List.mem_range.mpr hlen, by rw [hdrop]; exact isPrefixOf_append_self p b⟩

theorem hasSub_self_append (p b : List Char) : hasSub p (p ++ b) = true := by
  have := hasSub_of_mid p [] b
  simpa using this

theorem hasSub_append_self (p a : List Char) : hasSub p (a ++ p) = true := by
  have := hasSub_of_mid p a []
  simpa using this

/-! ### Claim C4 -/

/-- C4: for every url that does not start with `http://` or `https://`,
`fetch_url_content` returns `success = false` with the invalid-URL error
message, and performs zero network calls. -/
theorem fetch_invalid_url_rejected (url : List Char) (includeHtml : Bool)
    (maxLength : Nat) (net : List Char → NetOutcome)
    (h : validScheme url = false) :
    (fetch_url_content url includeHtml maxLength net).2 = 0 ∧
    (fetch_url_content url includeHtml maxLength net).1.success = false ∧
    (fetch_url_content url includeHtml maxLength net).1.error = some invalidUrlMsg := by
  simp [fetch_url_content, h]

/-- C4 witness: `fetch_url_content` on `ftp://example.com` makes no
network call and fails with the invalid-URL message. -/
theorem fetch_invalid_url_rejected_witness :
    validScheme urlFtp = false ∧
    (fetch_url_content urlFtp false 50000 netTimeout).2 = 0 ∧
    (fetch_url_content urlFtp false 50000 netTimeout).1.success = false ∧
    (fetch_url_content urlFtp false 50000 netTimeout).1.error = some invalidUrlMsg :=
  ⟨by decide, fetch_invalid_url_rejected urlFtp false 50000 netTimeout (by decide)⟩

/-! ### Claim C5 -/

/-- C5: for every valid URL, `fetch_url_content` classifies every failed
attempt: an `httpx.HTTPStatusError` — raised directly or by
`raise_for_status` on a 4xx/5xx response — yields `success = false` with
`status_code` set and a message containing the status code and reason
phrase; a timeout yields the fixed 30-second message and no
`status_code`; any other exception yields `success = false` with a
message containing the exception's class name and description. The
function is total (never raises) by construction. -/
theorem httpErrorMsg_hasSub_code (s : Nat) (r : List Char) :
    hasSub (toString s).toList (httpErrorMsg s r) = true := by
  unfold httpErrorMsg
  rw [List.append_assoc, List.append_assoc]
  exact hasSub_of_mid _ _ _

theorem httpErrorMsg_hasSub_reason (s : Nat) (r : List Char) :
    hasSub r (httpErrorMsg s r) = true := by
  unfold httpErrorMsg
  exact hasSub_append_self r _

theorem fetch_error_classification (url : List Char) (includeHtml : Bool)
    (maxLength : Nat) (net : List Char → NetOutcome)
    (hv : validScheme url = true) :
    (∀ s r, net url = .exc (.httpStatus s r) →
      (fetch_url_content url includeHtml maxLength net).1.success = false ∧
      (fetch_url_content url includeHtml maxLength net).1.status_code = some s ∧
      (fetch_url_content url includeHtml maxLength net).1.error = some (httpErrorMsg s r) ∧
      hasSub (toString s).toList (httpErrorMsg s r) = true ∧
      hasSub r (httpErrorMsg s r) = true) ∧
    (net url = .exc .timedOut →
      (fetch_url_content url includeHtml maxLength net).1.success = false ∧
      (fetch_url_content url includeHtml maxLength net).1.status_code = none ∧
      (fetch_url_content url includeHtml maxLength net).1.error = some timeoutMsg ∧
      hasSub ("30 seconds".toList) timeoutMsg = true) ∧
    (∀ c m, net url = .exc (.otherExc c m) →
      (fetch_url_content url includeHtml maxLength net).1.success = false ∧
      (fetch_url_content url includeHtml maxLength net).1.status_code = none ∧
      (fetch_url_content url includeHtml maxLength net).1.error =
        some (c ++ (": ".toList) ++ m) ∧
      hasSub c (c ++ (": ".toList) ++ m) = true ∧
      hasSub m (c ++ (": ".toList) ++ m) = true) ∧
    (∀ resp, net url = .ok resp → 400 ≤ resp.status_code →
      (fetch_url_content url includeHtml maxLength net).1.success = false ∧
      (fetch_url_content url includeHtml maxLength net).1.status_code = some resp.status_code ∧
      (fetch_url_content url includeHtml maxLength net).1.error =
        some (httpErrorMsg resp.status_code resp.reason_phrase)) := by
  refine ⟨?_, ?_, ?_, ?_⟩
  · intro s r hnet
    have hres : fetch_url_content url includeHtml maxLength net =
        (classifyFetchExc url (.httpStatus s r), 1) := by
      simp [fetch_url_content, hv, hnet]
    rw [hres]
    exact ⟨rfl, rfl, rfl, httpErrorMsg_hasSub_code s r, httpErrorMsg_hasSub_reason s r⟩
  · intro hnet
    have hres : fetch_url_content url includeHtml maxLength net =
        (classifyFetchExc url .timedOut, 1) := by
      simp [fetch_url_content, hv, hnet]
    rw [hres]
    exact ⟨rfl, rfl, rfl, by decide⟩
  · intro c m hnet
    have hres : fetch_url_content url includeHtml maxLength net =
        (classifyFetchExc url (.otherExc c m), 1) := by
      simp [fetch_url_content, hv, hnet]
    rw [hres]
    refine ⟨rfl, rfl, ?_, ?_, ?_⟩
    · show some (c ++ (": ".toList) ++ m) = some (c ++ (": ".toList) ++ m)
      rfl
    · rw [List.append_assoc]
      exact hasSub_self_append c _
    · exact hasSub_append_self m _
  · intro resp hnet hstatus
    have hcond : (resp.status_code < 200 || 300 ≤ resp.status_code) = true := by
      simp only [Bool.or_eq_true, decide_eq_true_eq]
      omega
    have hres : fetch_url_content url includeHtml maxLength net =
        (classifyFetchExc url (.httpStatus resp.status_code resp.reason_phrase), 1) := by
      simp [fetch_url_content, hv, hnet, hcond]
    rw [hres]
    exact ⟨rfl, rfl, rfl⟩

/-- C5 witness: on `urlB` the 404 answer is classified with status code
404 and the message `HTTP error 404: Not Found`; on a timing-out URL the
fixed timeout message is produced with no status code. -/
theorem fetch_error_classification_witness :
    validScheme urlB = true ∧
    ((fetch_url_content urlB false 50000 net0).1.success = false ∧
      (fetch_url_content urlB false 50000 net0).1.status_code = some 404 ∧
      (fetch_url_content urlB false 50000 net0).1.error =
        some (httpErrorMsg 404 ("Not Found".toList)) ∧
      hasSub (toString 404).toList (httpErrorMsg 404 ("Not Found".toList)) = true ∧
      hasSub ("Not Found".toList) (httpErrorMsg 404 ("Not Found".toList)) = true) ∧
    ((fetch_url_content urlC false 50000 netTimeout).1.success = false ∧
      (fetch_url_content urlC false 50000 netTimeout).1.status_code = none ∧
      (fetch_url_content urlC false 50000 netTimeout).1.error = some timeoutMsg ∧
      hasSub ("30 seconds".toList) timeoutMsg = true) :=
  ⟨by decide,
    (fetch_error_classification urlB false 50000 net0 (by decide)).1
      404 ("Not Found".toList) rfl,
    (fetch_error_classification urlC false 50000 netTimeout (by decide)).2.1 rfl⟩

/-! ### Claim C6 -/

/-- C6: `ddg_web_search` never lets an exception escape (it is a total
function of its oracles): a missing ddgs dependency is answered with the
specific actionable message naming the library and the `pip install`
command, and any other exception is answered with a generic failure
carrying the underlying message. -/
theorem ddg_failure_handling (query : List Char) (maxResults : Nat)
    (engine : List Char → Nat → DdgOutcome) :
    (engine query (min maxResults 10) = .importErr →
      ddg_web_search query maxResults engine =
        { success := false, query := query, error := some ddgsMissingMsg,
          result_count := none, results := none } ∧
      hasSub ("ddgs".toList) ddgsMissingMsg = true ∧
      hasSub ("pip install ddgs".toList) ddgsMissingMsg = true) ∧
    (∀ m, engine query (min maxResults 10) = .raised m →
      ddg_web_search query maxResults engine =
        { success := false, query := query, error := some m,
          result_count := none, results := none }) := by
  constructor
  · intro h
    refine ⟨by simp [ddg_web_search, h], by decide, by decide⟩
  · intro m h
    simp [ddg_web_search, h]

/-- C6 witness: with the ddgs import failing, the search returns the
specific actionable failure; with a generic engine exception, the
failure carries the underlying message. -/
theorem ddg_failure_handling_witness :
    (engineNoDep q0 (min 5 10) = .importErr) ∧
    (ddg_web_search q0 5 engineNoDep =
      { success := false, query := q0, error := some ddgsMissingMsg,
        result_count := none, results := none } ∧
      hasSub ("ddgs".toList) ddgsMissingMsg = true ∧
      hasSub ("pip install ddgs".toList) ddgsMissingMsg = true) ∧
    (ddg_web_search q0 5 engineBoom =
      { success := false, query := q0, error := some ("boom".toList),
        result_count := none, results := none }) :=
  ⟨rfl, (ddg_failure_handling q0 5 engineNoDep).1 rfl,
    (ddg_failure_handling q0 5 engineBoom).2 ("boom".toList) rfl⟩

/-! Helper lemmas about the orchestrator. -/

theorem fetchLoop_length (maxLength : Nat) (net : List Char → NetOutcome) :
    ∀ (us : List (List Char)) (idx : Nat),
      (fetchLoop maxLength net idx us).length = us.length := by
  intro us
  induction us with
  | nil => intro idx; rfl
  | cons u us ih => intro idx; simp [fetchLoop, ih]

theorem fetchLoop_get (maxLength : Nat) (net : List Char → NetOutcome) :
    ∀ (us : List (List Char)) (idx i : Nat)
      (h1 : i < (fetchLoop maxLength net idx us).length) (h2 : i < us.length),
      (fetchLoop maxLength net idx us).get ⟨i, h1⟩ =
        mkEntry (idx + i) (us.get ⟨i, h2⟩) maxLength net := by
  intro us
  induction us with
  | nil => intro idx i h1 h2; simp at h2
  | cons u us ih =>
    intro idx i h1 h2
    cases i with
    | zero => simp [fetchLoop]
    | succ j =>
      have h1' : j < (fetchLoop maxLength net (idx + 1) us).length := by
        simpa [fetchLoop] using h1
      have h2' : j < us.length := by simpa using h2
      have harith : idx + 1 + j = idx + (j + 1) := by omega
      simp only [fetchLoop, List.get_cons_succ]
      rw [ih (idx + 1) j h1' h2', harith]

theorem search_and_fetch_failure_eq (query : List Char) (maxResults topN maxLength : Nat)
    (engine : List Char → Nat → DdgOutcome) (net : List Char → NetOutcome)
    (h : (ddg_web_search query maxResults engine).success = false) :
    search_and_fetch query maxResults topN maxLength engine net =
      .searchFailure (ddg_web_search query maxResults engine) := by
  simp [search_and_fetch, h]

theorem search_and_fetch_success_eq (query : List Char) (maxResults topN maxLength : Nat)
    (engine : List Char → Nat → DdgOutcome) (net : List Char → NetOutcome)
    (h : (ddg_web_search query maxResults engine).success = true) :
    search_and_fetch query maxResults topN maxLength engine net =
      .report
        { success := true, query := query,
          search_results := ddg_web_search query maxResults engine,
          fetched_content := fetchLoop maxLength net 1
            ((((ddg_web_search query maxResults engine).results.getD []).take topN).map
              (fun r => r.link)),
          total_results := ((ddg_web_search query maxResults engine).results.getD []).length,
          fetched_count := (fetchLoop maxLength net 1
            ((((ddg_web_search query maxResults engine).results.getD []).take topN).map
              (fun r => r.link))).length } := by
  simp [search_and_fetch, h]

theorem fetch_net_congr (url : List Char) (includeHtml : Bool) (maxLength : Nat)
    (net net2 : List Char → NetOutcome) (h : net url = net2 url) :
    fetch_url_content url includeHtml maxLength net =
      fetch_url_content url includeHtml maxLength net2 := by
  unfold fetch_url_content
  rw [h]

theorem fetch_fail_fields (url : List Char) (includeHtml : Bool) (maxLength : Nat)
    (net : List Char → NetOutcome)
    (h : (fetch_url_content url includeHtml maxLength net).1.success = false) :
    (fetch_url_content url includeHtml maxLength net).1.title = none ∧
    (fetch_url_content url includeHtml maxLength net).1.text_content = none ∧
    (fetch_url_content url includeHtml maxLength net).1.text_length = none := by
  cases hvs : validScheme url with
  | false => simp [fetch_url_content, hvs]
  | true =>
    cases hnet : net url with
    | exc e => cases e <;> simp [fetch_url_content, hvs, hnet, classifyFetchExc]
    | ok resp =>
      cases hst : (resp.status_code < 200 || 300 ≤ resp.status_code) with
      | true => simp [fetch_url_content, hvs, hnet, hst, classifyFetchExc]
      | false => simp [fetch_url_content, hvs, hnet, hst] at h

theorem fetch_succ_len (url : List Char) (includeHtml : Bool) (maxLength : Nat)
    (net : List Char → NetOutcome)
    (h : (fetch_url_content url includeHtml maxLength net).1.success = true) :
    ∃ t, (fetch_url_content url includeHtml maxLength net).1.text_content = some t ∧
      (fetch_url_content url includeHtml maxLength net).1.text_length = some t.length := by
  cases hvs : validScheme url with
  | false => simp [fetch_url_content, hvs] at h
  | true =>
    cases hnet : net url with
    | exc e => cases e <;> simp [fetch_url_content, hvs, hnet, classifyFetchExc] at h
    | ok resp =>
      cases hst : (resp.status_code < 200 || 300 ≤ resp.status_code) with
      | true => simp [fetch_url_content, hvs, hnet, hst, classifyFetchExc] at h
      | false =>
        refine ⟨extract_text_from_html resp.bodyDoc maxLength, ?_, ?_⟩ <;>
          simp [fetch_url_content, hvs, hnet, hst]

theorem mkEntry_basic (idx : Nat) (u : List Char) (maxLength : Nat)
    (net : List Char → NetOutcome) :
    (mkEntry idx u maxLength net).index = idx ∧ (mkEntry idx u maxLength net).url = u :=
  ⟨rfl, rfl⟩

theorem mkEntry_text_length (idx : Nat) (u : List Char) (maxLength : Nat)
    (net : List Char → NetOutcome) :
    (mkEntry idx u maxLength net).text_length =
      (mkEntry idx u maxLength net).text_content.length := by
  unfold mkEntry entryOfContent
  cases hs : (fetch_url_content u false maxLength net).1.success with
  | false =>
    have hf := fetch_fail_fields u false maxLength net hs
    simp [hf.2.1, hf.2.2]
  | true =>
    obtain ⟨t, ht, hl⟩ := fetch_succ_len u false maxLength net hs
    simp [ht, hl]

theorem mkEntry_fail_defaults (idx : Nat) (u : List Char) (maxLength : Nat)
    (net : List Char → NetOutcome)
    (h : (mkEntry idx u maxLength net).fetch_success = false) :
    (mkEntry idx u maxLength net).title = "No title".toList ∧
    (mkEntry idx u maxLength net).text_content = [] ∧
    (mkEntry idx u maxLength net).text_length = 0 := by
  have hs : (fetch_url_content u false maxLength net).1.success = false := by
    simpa [mkEntry, entryOfContent] using h
  have hf := fetch_fail_fields u false maxLength net hs
  unfold mkEntry entryOfContent
  simp [hf.1, hf.2.1, hf.2.2]

/-! ### Claim C1 -/

/-- C1: when the search succeeds with `K` results and `topN` is
positive, `search_and_fetch` produces a report with
`fetched_count = min topN K` fetched entries, and the i-th entry's url
is the link of the i-th ranked search result, in order. -/
theorem search_and_fetch_counts_and_order (query : List Char)
    (maxResults topN maxLength : Nat) (engine : List Char → Nat → DdgOutcome)
    (net : List Char → NetOutcome)
    (hs : (ddg_web_search query maxResults engine).success = true)
    (_ht : 0 < topN) :
    ∃ d, search_and_fetch query maxResults topN maxLength engine net = .report d ∧
      d.fetched_count =
        min topN ((ddg_web_search query maxResults engine).results.getD []).length ∧
      d.fetched_content.length = d.fetched_count ∧
      ∀ i (h1 : i < d.fetched_content.length)
        (h2 : i < ((ddg_web_search query maxResults engine).results.getD []).length),
        (d.fetched_content.get ⟨i, h1⟩).url =
          (((ddg_web_search query maxResults engine).results.getD []).get ⟨i, h2⟩).link := by
  refine ⟨_, search_and_fetch_success_eq query maxResults topN maxLength engine net hs,
    ?_, ?_, ?_⟩
  · simp [fetchLoop_length, List.length_take, Nat.min_comm]
  · simp [fetchLoop_length]
  · intro i h1 h2
    have hlen : i < ((((ddg_web_search query maxResults engine).results.getD []).take
        topN).map (fun r => r.link)).length := by
      simpa [fetchLoop_length] using h1
    rw [fetchLoop_get maxLength net _ 1 i h1 hlen]
    have hu : (mkEntry (1 + i)
        (((((ddg_web_search query maxResults engine).results.getD []).take topN).map
          (fun r => r.link)).get ⟨i, hlen⟩) maxLength net).url =
        ((((ddg_web_search query maxResults engine).results.getD []).take topN).map
          (fun r => r.link)).get ⟨i, hlen⟩ := rfl
    rw [hu]
    simp

/-- C1 witness: three search results, `topN = 3`, yields exactly three
entries whose urls are the three links in order. -/
theorem search_and_fetch_counts_and_order_witness :
    ((ddg_web_search q0 5 engine3).success = true ∧ 0 < 3) ∧
    ∃ d, search_and_fetch q0 5 3 50000 engine3 net0 = .report d ∧
      d.fetched_count = min 3 ((ddg_web_search q0 5 engine3).results.getD []).length ∧
      d.fetched_content.length = d.fetched_count ∧
      ∀ i (h1 : i < d.fetched_content.length)
        (h2 : i < ((ddg_web_search q0 5 engine3).results.getD []).length),
        (d.fetched_content.get ⟨i, h1⟩).url =
          (((ddg_web_search q0 5 engine3).results.getD []).get ⟨i, h2⟩).link :=
  ⟨⟨rfl, by decide⟩,
    search_and_fetch_counts_and_order q0 5 3 50000 engine3 net0 rfl (by decide)⟩

/-! ### Claim C7 -/

/-- C7: a search failure is fatal and returned unchanged, while fetch
failures are partial: whenever the search succeeds the overall result is
a report with `success = true` for any network behaviour, every selected
URL gets its entry (in order, each determined by its own fetch), and an
entry depends on the network only through its own URL. -/
theorem search_failure_fatal_fetch_failures_tolerated (query : List Char)
    (maxResults topN maxLength : Nat) (engine : List Char → Nat → DdgOutcome)
    (net : List Char → NetOutcome) :
    ((ddg_web_search query maxResults engine).success = false →
      search_and_fetch query maxResults topN maxLength engine net =
        .searchFailure (ddg_web_search query maxResults engine)) ∧
    ((ddg_web_search query maxResults engine).success = true →
      ∃ d, search_and_fetch query maxResults topN maxLength engine net = .report d ∧
        d.success = true ∧
        d.fetched_content.length =
          min topN ((ddg_web_search query maxResults engine).results.getD []).length ∧
        ∀ i (h1 : i < d.fetched_content.length)
          (h2 : i < ((((ddg_web_search query maxResults engine).results.getD []).take
            topN).map (fun r => r.link)).length),
          d.fetched_content.get ⟨i, h1⟩ =
            mkEntry (1 + i)
              (((((ddg_web_search query maxResults engine).results.getD []).take topN).map
                (fun r => r.link)).get ⟨i, h2⟩) maxLength net) ∧
    (∀ idx u (net2 : List Char → NetOutcome), net u = net2 u →
      mkEntry idx u maxLength net = mkEntry idx u maxLength net2) := by
  refine ⟨search_and_fetch_failure_eq query maxResults topN maxLength engine net, ?_, ?_⟩
  · intro hs
    refine ⟨_, search_and_fetch_success_eq query maxResults topN maxLength engine net hs,
      rfl, ?_, ?_⟩
    · simp [fetchLoop_length, List.length_take, Nat.min_comm]
    · intro i h1 h2
      exact fetchLoop_get maxLength net _ 1 i h1 h2
  · intro idx u net2 h
    unfold mkEntry
    rw [fetch_net_congr u false maxLength net net2 h]

/-- C7 witness: with a failing engine the failure is passed through; with
three results and every fetch timing out, the report still has
`success = true` and three attempted entries. -/
theorem search_failure_fatal_fetch_failures_tolerated_witness :
    (search_and_fetch q0 5 3 50000 engineBoom netTimeout =
      .searchFailure (ddg_web_search q0 5 engineBoom)) ∧
    ((ddg_web_search q0 5 engine3).success = true ∧
      ∃ d, search_and_fetch q0 5 3 50000 engine3 netTimeout = .report d ∧
        d.success = true ∧
        d.fetched_content.length =
          min 3 ((ddg_web_search q0 5 engine3).results.getD []).length ∧
        ∀ i (h1 : i < d.fetched_content.length)
          (h2 : i < ((((ddg_web_search q0 5 engine3).results.getD []).take 3).map
            (fun r => r.link)).length),
          d.fetched_content.get ⟨i, h1⟩ =
            mkEntry (1 + i)
              (((((ddg_web_search q0 5 engine3).results.getD []).take 3).map
                (fun r => r.link)).get ⟨i, h2⟩) 50000 netTimeout) :=
  ⟨(search_failure_fatal_fetch_failures_tolerated q0 5 3 50000 engineBoom netTimeout).1 rfl,
    rfl,
    (search_failure_fatal_fetch_failures_tolerated q0 5 3 50000 engine3 netTimeout).2.1 rfl⟩

/-! ### Claim C9 -/

/-- C9 counterexample: the fetch loop of `search_and_fetch` awaits each
fetch before starting the next, so with three selected results whose
fetches each last the full 30-second timeout, the fetch phase lasts
90 seconds — three times the single-fetch timeout, not "roughly one
30-second fetch timeout". -/
theorem search_and_fetch_time_counterexample :
    search_and_fetch_time q0 5 3 engine3 dur30 = 3 * 30 ∧
    30 < search_and_fetch_time q0 5 3 engine3 dur30 := by
  refine ⟨rfl, ?_⟩
  show 30 < 90
  decide

theorem fetchPhaseDuration_le (dur : List Char → Nat) (bound : Nat)
    (h : ∀ u, dur u ≤ bound) :
    ∀ us : List (List Char), fetchPhaseDuration dur us ≤ us.length * bound := by
  intro us
  induction us with
  | nil => simp [fetchPhaseDuration]
  | cons u us ih =>
    have := h u
    simp only [fetchPhaseDuration, List.length_cons]
    calc dur u + fetchPhaseDuration dur us ≤ bound + us.length * bound := by omega
    _ = (us.length + 1) * bound := by ring

/-- C9 (amended): `search_and_fetch` issues the top-N fetches
sequentially, awaiting each before the next, so the fetch phase lasts
the sum of the individual fetch durations; when every fetch respects its
30-second timeout this is bounded by `min topN K * 30` (i.e. up to
N x 30s, not ~30s), and the entries are still assembled in selection
order. -/
theorem search_and_fetch_sequential_time (query : List Char) (maxResults topN : Nat)
    (engine : List Char → Nat → DdgOutcome) (dur : List Char → Nat)
    (hdur : ∀ u, dur u ≤ 30) :
    ((ddg_web_search query maxResults engine).success = true →
      search_and_fetch_time query maxResults topN engine dur =
        fetchPhaseDuration dur
          ((((ddg_web_search query maxResults engine).results.getD []).take topN).map
            (fun r => r.link))) ∧
    search_and_fetch_time query maxResults topN engine dur ≤
      min topN ((ddg_web_search query maxResults engine).results.getD []).length * 30 := by
  constructor
  · intro hs
    simp [search_and_fetch_time, hs]
  · cases hs : (ddg_web_search query maxResults engine).success with
    | false => simp [search_and_fetch_time, hs]
    | true =>
      have hle := fetchPhaseDuration_le dur 30 hdur
        ((((ddg_web_search query maxResults engine).results.getD []).take topN).map
          (fun r => r.link))
      have hlen : ((((ddg_web_search query maxResults engine).results.getD []).take
          topN).map (fun r => r.link)).length =
          min topN ((ddg_web_search query maxResults engine).results.getD []).length := by
        simp [List.length_take]
      rw [hlen] at hle
      simpa [search_and_fetch_time, hs] using hle

/-- C9 (amended) witness: with three results and every fetch lasting
exactly 30 seconds, the fetch phase equals the summed durations and is
within the `3 * 30` bound. -/
theorem search_and_fetch_sequential_time_witness :
    ((ddg_web_search q0 5 engine3).success = true →
      search_and_fetch_time q0 5 3 engine3 dur30 =
        fetchPhaseDuration dur30
          ((((ddg_web_search q0 5 engine3).results.getD []).take 3).map
            (fun r => r.link))) ∧
    search_and_fetch_time q0 5 3 engine3 dur30 ≤
      min 3 ((ddg_web_search q0 5 engine3).results.getD []).length * 30 :=
  search_and_fetch_sequential_time q0 5 3 engine3 dur30 (fun _ => Nat.le_refl 30)

/-! ### Claim C10 -/

/-- C10: every entry of `fetched_content` carries all its keys; its
`index` is its 1-based position, `text_length` always equals the length
of `text_content`, and a failed fetch gets the defaults
`"No title"`, `""` and `0`. -/
theorem fetched_entries_wellformed (query : List Char) (maxResults topN maxLength : Nat)
    (engine : List Char → Nat → DdgOutcome) (net : List Char → NetOutcome)
    (d : RetrievalReport)
    (hd : search_and_fetch query maxResults topN maxLength engine net = .report d) :
    ∀ i (h : i < d.fetched_content.length),
      (d.fetched_content.get ⟨i, h⟩).index = i + 1 ∧
      (d.fetched_content.get ⟨i, h⟩).text_length =
        (d.fetched_content.get ⟨i, h⟩).text_content.length ∧
      ((d.fetched_content.get ⟨i, h⟩).fetch_success = false →
        (d.fetched_content.get ⟨i, h⟩).title = "No title".toList ∧
        (d.fetched_content.get ⟨i, h⟩).text_content = [] ∧
        (d.fetched_content.get ⟨i, h⟩).text_length = 0) := by
  intro i h
  cases hs : (ddg_web_search query maxResults engine).success with
  | false =>
    rw [search_and_fetch_failure_eq query maxResults topN maxLength engine net hs] at hd
    exact absurd hd (by intro hc; cases hc)
  | true =>
    rw [search_and_fetch_success_eq query maxResults topN maxLength engine net hs] at hd
    injection hd with hd
    subst hd
    have h2 : i < ((((ddg_web_search query maxResults engine).results.getD []).take
        topN).map (fun r => r.link)).length := by
      simpa [fetchLoop_length] using h
    rw [fetchLoop_get maxLength net _ 1 i h h2]
    refine ⟨?_, mkEntry_text_length _ _ _ _, mkEntry_fail_defaults _ _ _ _⟩
    have := (mkEntry_basic (1 + i)
      (((((ddg_web_search query maxResults engine).results.getD []).take topN).map
        (fun r => r.link)).get ⟨i, h2⟩) maxLength net).1
    omega

/-- C10 witness: the report for three results with `urlA` succeeding and
the rest failing satisfies the per-entry invariants at every index. -/
theorem fetched_entries_wellformed_witness :
    ∃ d, search_and_fetch q0 5 3 50000 engine3 net0 = .report d ∧
      ∀ i (h : i < d.fetched_content.length),
        (d.fetched_content.get ⟨i, h⟩).index = i + 1 ∧
        (d.fetched_content.get ⟨i, h⟩).text_length =
          (d.fetched_content.get ⟨i, h⟩).text_content.length ∧
        ((d.fetched_content.get ⟨i, h⟩).fetch_success = false →
          (d.fetched_content.get ⟨i, h⟩).title = "No title".toList ∧
          (d.fetched_content.get ⟨i, h⟩).text_content = [] ∧
          (d.fetched_content.get ⟨i, h⟩).text_length = 0) :=
  ⟨_, search_and_fetch_success_eq q0 5 3 50000 engine3 net0 rfl,
    fetched_entries_wellformed q0 5 3 50000 engine3 net0 _
      (search_and_fetch_success_eq q0 5 3 50000 engine3 net0 rfl)⟩

/-! Helper lemmas for the text extractor. -/

theorem slGo_mem : ∀ (s : List Char) (sawCR : Bool) (acc : List Char),
    (∀ c ∈ acc, isLineBreak c = false) →
    ∀ l ∈ slGo sawCR acc s, ∀ c ∈ l, (c ∈ acc ∨ c ∈ s) ∧ isLineBreak c = false := by
  intro s
  induction s with
  | nil =>
    intro sawCR acc hacc l hl c hc
    by_cases hae : acc.isEmpty
    · simp [slGo, hae] at hl
    · simp [slGo, hae] at hl
      subst hl
      simp at hc
      exact ⟨Or.inl hc, hacc c hc⟩
  | cons a rest ih =>
    intro sawCR acc hacc l hl c hc
    simp only [slGo] at hl
    by_cases h1 : (sawCR && a = '\n') = true
    · rw [if_pos h1] at hl
      have := ih false acc hacc l hl c hc
      exact ⟨by rcases this.1 with h | h; exact Or.inl h; exact Or.inr (by simp [h]), this.2⟩
    · rw [if_neg h1] at hl
      by_cases h2 : a = '\r'
      · rw [if_pos h2] at hl
        rcases List.mem_cons.mp hl with rfl | hl
        · simp at hc
          exact ⟨Or.inl hc, hacc c hc⟩
        · have := ih true [] (by simp) l hl c hc
          rcases this.1 with h | h
          · simp at h
          · exact ⟨Or.inr (by simp [h]), this.2⟩
      · rw [if_neg h2] at hl
        by_cases h3 : isLineBreak a = true
        · rw [if_pos h3] at hl
          rcases List.mem_cons.mp hl with rfl | hl
          · simp at hc
            exact ⟨Or.inl hc, hacc c hc⟩
          · have := ih false [] (by simp) l hl c hc
            rcases this.1 with h | h
            · simp at h
            · exact ⟨Or.inr (by simp [h]), this.2⟩
        · rw [if_neg h3] at hl
          have hacc' : ∀ c ∈ a :: acc, isLineBreak c = false := by
            intro x hx
            rcases List.mem_cons.mp hx with rfl | hx
            · simpa using h3
            · exact hacc x hx
          have := ih false (a :: acc) hacc' l hl c hc
          rcases this.1 with h | h
          · rcases List.mem_cons.mp h with rfl | h
            · exact ⟨Or.inr (by simp), this.2⟩
            · exact ⟨Or.inl h, this.2⟩
          · exact ⟨Or.inr (by simp [h]), this.2⟩

theorem pySplitlines_mem (s l : List Char) (hl : l ∈ pySplitlines s) :
    ∀ c ∈ l, c ∈ s ∧ isLineBreak c = false := by
  intro c hc
  have := slGo_mem s false [] (by simp) l hl c hc
  rcases this.1 with h | h
  · simp at h
  · exact ⟨h, this.2⟩

theorem stsGo_mem : ∀ (s : List Char) (pend : Bool) (acc : List Char),
    ∀ l ∈ stsGo pend acc s, ∀ c ∈ l, c ∈ acc ∨ (pend = true ∧ c = ' ') ∨ c ∈ s := by
  intro s
  induction s with
  | nil =>
    intro pend acc l hl c hc
    simp [stsGo] at hl
    subst hl
    simp at hc
    cases pend with
    | false => exact Or.inl (by simpa using hc)
    | true =>
      rcases List.mem_cons.mp (by simpa using hc) with rfl | h
      · exact Or.inr (Or.inl ⟨rfl, rfl⟩)
      · exact Or.inl h
  | cons a rest ih =>
    intro pend acc l hl c hc
    simp only [stsGo] at hl
    by_cases h1 : a = ' '
    · rw [if_pos h1] at hl
      cases pend with
      | true =>
        rw [if_pos rfl] at hl
        rcases List.mem_cons.mp hl with rfl | hl
        · simp at hc
          exact Or.inl hc
        · rcases ih false [] l hl c hc with h | h | h
          · simp at h
          · simp at h
          · exact Or.inr (Or.inr (by simp [h]))
      | false =>
        rw [if_neg (by simp)] at hl
        rcases ih true acc l hl c hc with h | h | h
        · exact Or.inl h
        · exact Or.inr (Or.inr (by simp [h1, h.2]))
        · exact Or.inr (Or.inr (by simp [h]))
    · rw [if_neg h1] at hl
      rcases ih false (a :: (if pend then ' ' :: acc else acc)) l hl c hc with h | h | h
      · rcases List.mem_cons.mp h with rfl | h
        · exact Or.inr (Or.inr (by simp))
        · cases pend with
          | false => exact Or.inl (by simpa using h)
          | true =>
            rcases List.mem_cons.mp (by simpa using h) with rfl | h
            · exact Or.inr (Or.inl ⟨rfl, rfl⟩)
            · exact Or.inl h
      · simp at h
      · exact Or.inr (Or.inr (by simp [h]))

theorem splitTwoSpaces_mem (s l : List Char) (hl : l ∈ splitTwoSpaces s) :
    ∀ c ∈ l, c ∈ s := by
  intro c hc
  rcases stsGo_mem s false [] l hl c hc with h | h | h
  · simp at h
  · simp at h
  · exact h

theorem pyStrip_subset (l : List Char) : ∀ c ∈ pyStrip l, c ∈ l := by
  intro c hc
  unfold pyStrip at hc
  rw [List.mem_reverse] at hc
  have h1 := (List.dropWhile_sublist (l := (l.dropWhile pyIsSpace).reverse) pyIsSpace).subset hc
  rw [List.mem_reverse] at h1
  exact (List.dropWhile_sublist pyIsSpace).subset h1

theorem collapseChunks_mem (t ch : List Char) (hch : ch ∈ collapseChunks t) :
    ∀ c ∈ ch, c ∈ t ∧ isLineBreak c = false := by
  intro c hc
  unfold collapseChunks at hch
  rw [List.mem_flatten] at hch
  obtain ⟨lss, hlss, hch2⟩ := hch
  rw [List.mem_map] at hlss
  obtain ⟨line, hline, rfl⟩ := hlss
  rw [List.mem_map] at hline
  obtain ⟨l0, hl0, rfl⟩ := hline
  rw [List.mem_map] at hch2
  obtain ⟨ph, hph, rfl⟩ := hch2
  have hc1 : c ∈ ph := pyStrip_subset ph c hc
  have hc2 : c ∈ pyStrip l0 := splitTwoSpaces_mem (pyStrip l0) ph hph c hc1
  have hc3 : c ∈ l0 := pyStrip_subset l0 c hc2
  exact pySplitlines_mem t l0 hl0 c hc3

theorem mem_joinNL : ∀ (cs : List (List Char)) (c : Char), c ∈ joinNL cs →
    c = '\n' ∨ ∃ ch ∈ cs, c ∈ ch := by
  intro cs
  induction cs with
  | nil => intro c hc; simp [joinNL] at hc
  | cons a cs ih =>
    intro c hc
    cases cs with
    | nil =>
      simp only [joinNL] at hc
      exact Or.inr ⟨a, by simp [hc]⟩
    | cons b cs2 =>
      simp only [joinNL] at hc
      rcases List.mem_append.mp hc with h | h
      · exact Or.inr ⟨a, by simp, h⟩
      · rcases List.mem_cons.mp h with rfl | h
        · exact Or.inl rfl
        · rcases ih c h with h | ⟨ch, hch, hcch⟩
          · exact Or.inl h
          · exact Or.inr ⟨ch, by simp [hch], hcch⟩

theorem hasNN_cons_tail (a : Char) (l : List Char) (h : hasNN (a :: l) = false) :
    hasNN l = false := by
  cases l with
  | nil => rfl
  | cons b r =>
    rw [show hasNN (a :: b :: r) = ((a = '\n' && b = '\n') || hasNN (b :: r)) from rfl] at h
    exact (Bool.or_eq_false_iff.mp h).2

theorem noNN_append (xs l : List Char) (hx : '\n' ∉ xs) (hl : hasNN l = false) :
    hasNN (xs ++ l) = false := by
  induction xs with
  | nil => simpa using hl
  | cons a xs ih =>
    have ha : a ≠ '\n' := fun he => hx (by simp [he])
    have hx' : '\n' ∉ xs := fun he => hx (by simp [he])
    have ihr := ih hx'
    rw [List.cons_append]
    cases hxl : xs ++ l with
    | nil => rfl
    | cons b r =>
      rw [show hasNN (a :: b :: r) = ((a = '\n' && b = '\n') || hasNN (b :: r)) from rfl]
      rw [← hxl, ihr]
      simp [ha]

theorem noNN_of_not_mem (l : List Char) (h : '\n' ∉ l) : hasNN l = false := by
  have := noNN_append l [] h rfl
  simpa using this

theorem hasNN_cons_nl (l : List Char) (hl : hasNN l = false) (hh : l.head? ≠ some '\n') :
    hasNN ('\n' :: l) = false := by
  cases l with
  | nil => rfl
  | cons b r =>
    have hb : b ≠ '\n' := by simpa using hh
    rw [show hasNN ('\n' :: b :: r) = (('\n' = '\n' && b = '\n') || hasNN (b :: r)) from rfl]
    simp [hb, hl]

theorem joinNL_head (c : List Char) (cs : List (List Char)) (hc : c ≠ []) :
    (joinNL (c :: cs)).head? = c.head? := by
  cases cs with
  | nil => rfl
  | cons b cs2 =>
    cases c with
    | nil => exact absurd rfl hc
    | cons a c0 => rfl

theorem hasNN_joinNL : ∀ (cs : List (List Char)),
    (∀ ch ∈ cs, ch ≠ [] ∧ '\n' ∉ ch) → hasNN (joinNL cs) = false := by
  intro cs
  induction cs with
  | nil => intro _; rfl
  | cons a cs ih =>
    intro h
    cases cs with
    | nil =>
      exact noNN_of_not_mem a (h a (by simp)).2
    | cons b cs2 =>
      have hrest : hasNN (joinNL (b :: cs2)) = false := by
        refine ih ?_
        intro ch hch
        exact h ch (by simp [hch])
      have hb := h b (by simp)
      have hhead : (joinNL (b :: cs2)).head? ≠ some '\n' := by
        rw [joinNL_head b cs2 hb.1]
        cases b with
        | nil => simp
        | cons x b0 =>
          have : x ≠ '\n' := fun he => hb.2 (by simp [he])
          simpa using this
      have ha := h a (by simp)
      rw [show joinNL (a :: b :: cs2) = a ++ '\n' :: joinNL (b :: cs2) from rfl]
      exact noNN_append a _ ha.2 (hasNN_cons_nl _ hrest hhead)

theorem hasNN_collapseText (t : List Char) : hasNN (collapseText t) = false := by
  unfold collapseText
  refine hasNN_joinNL _ ?_
  intro ch hch
  rw [List.mem_filter] at hch
  refine ⟨by simpa using hch.2, ?_⟩
  intro hmem
  have := (collapseChunks_mem t ch hch.1 '\n' hmem).2
  simp [isLineBreak] at this

theorem collapseText_mem (t : List Char) (c : Char) (hc : c ∈ collapseText t) :
    c = '\n' ∨ c ∈ t := by
  unfold collapseText at hc
  rcases mem_joinNL _ c hc with h | ⟨ch, hch, hcch⟩
  · exact Or.inl h
  · rw [List.mem_filter] at hch
    exact Or.inr (collapseChunks_mem t ch hch.1 c hcch).1

theorem hasNN_take : ∀ (l : List Char) (n : Nat), hasNN l = false → hasNN (l.take n) = false := by
  intro l
  induction l with
  | nil => intro n _; simp [hasNN]
  | cons a l ih =>
    intro n h
    cases n with
    | zero => rfl
    | succ k =>
      rw [List.take_succ_cons]
      cases l with
      | nil => simp [hasNN]
      | cons b l2 =>
        cases k with
        | zero => simp [hasNN]
        | succ j =>
          rw [List.take_succ_cons]
          rw [show hasNN (a :: b :: (l2.take j)) =
            ((a = '\n' && b = '\n') || hasNN (b :: l2.take j)) from rfl]
          have h1 : (a = '\n' && b = '\n') = false := by
            have := congrArg id h
            rw [show hasNN (a :: b :: l2) = ((a = '\n' && b = '\n') || hasNN (b :: l2)) from rfl] at this
            exact (Bool.or_eq_false_iff.mp this).1
          have h2 : hasNN ((b :: l2).take (j + 1)) = false :=
            ih (j + 1) (hasNN_cons_tail a (b :: l2) h)
          rw [List.take_succ_cons] at h2
          simp [h1, h2]

theorem isPrefixOf_length : ∀ (a b : List Char), a.isPrefixOf b = true → a.length ≤ b.length := by
  intro a
  induction a with
  | nil => intro b _; simp
  | cons x a ih =>
    intro b h
    cases b with
    | nil => simp [List.isPrefixOf] at h
    | cons y b =>
      simp only [List.isPrefixOf, Bool.and_eq_true] at h
      have := ih b h.2
      simp only [List.length_cons]
      omega

theorem marker_starts : truncMarker = '\n' :: '\n' :: "[Content truncated...]".toList := rfl

theorem marker_prefix_shape (x : List Char) (h : truncMarker.isPrefixOf x = true) :
    ∃ r, x = '\n' :: '\n' :: r := by
  rw [marker_starts] at h
  cases x with
  | nil => simp [List.isPrefixOf] at h
  | cons y x =>
    cases x with
    | nil =>
      simp only [List.isPrefixOf, Bool.and_eq_true] at h
      exact absurd h.2 (by simp [List.isPrefixOf])
    | cons z x =>
      simp only [List.isPrefixOf, Bool.and_eq_true, beq_iff_eq] at h
      exact ⟨x, by rw [← h.1, ← h.2.1]⟩

theorem noNN_drop : ∀ (l : List Char), hasNN l = false → ∀ p r, l.drop p ≠ '\n' :: '\n' :: r := by
  intro l
  induction l with
  | nil => intro _ p r hc; simp at hc
  | cons a l ih =>
    intro h p r hc
    cases p with
    | zero =>
      rw [List.drop_zero] at hc
      injection hc with h1 h2
      subst h1
      subst h2
      rw [show hasNN ('\n' :: '\n' :: r) = (('\n' = '\n' && '\n' = '\n') || hasNN ('\n' :: r)) from rfl] at h
      simp at h
    | succ q =>
      exact ih (hasNN_cons_tail a l h) q r (by simpa using hc)

theorem occCount_zero (l : List Char) (h : hasNN l = false) : occCount truncMarker l = 0 := by
  unfold occCount
  rw [List.countP_eq_zero]
  intro p _ hpre
  obtain ⟨r, hr⟩ := marker_prefix_shape _ hpre
  exact noNN_drop l h p r hr

theorem marker_occ_iff : ∀ (l : List Char), hasNN l = false →
    ∀ p, (truncMarker.isPrefixOf ((l ++ truncMarker).drop p) = true) ↔ p = l.length := by
  intro l
  induction l with
  | nil =>
    intro _ p
    simp only [List.nil_append, List.length_nil]
    constructor
    · intro hp
      by_contra hne
      have hpos : 0 < p := Nat.pos_of_ne_zero hne
      have hlen := isPrefixOf_length _ _ hp
      rw [List.length_drop] at hlen
      have hm : truncMarker.length = 24 := rfl
      omega
    · intro hp
      subst hp
      rw [List.drop_zero]
      decide
  | cons a l ih =>
    intro h p
    have h' : hasNN l = false := hasNN_cons_tail a l h
    cases p with
    | zero =>
      rw [List.drop_zero]
      constructor
      · intro hp
        exfalso
        obtain ⟨r, hr⟩ := marker_prefix_shape _ hp
        rw [List.cons_append] at hr
        have ha : a = '\n' := (List.cons_eq_cons.mp hr).1
        have hrest : l ++ truncMarker = '\n' :: r := (List.cons_eq_cons.mp hr).2
        cases l with
        | nil =>
          subst ha
          rw [List.cons_append, List.nil_append] at hp
          exact absurd hp (by decide)
        | cons b l2 =>
          rw [List.cons_append] at hrest
          have hb : b = '\n' := (List.cons_eq_cons.mp hrest).1
          subst ha
          subst hb
          rw [show hasNN ('\n' :: '\n' :: l2) = (('\n' = '\n' && '\n' = '\n') || hasNN ('\n' :: l2)) from rfl] at h
          simp at h
      · intro hp
        exact absurd hp (by simp)
    | succ q =>
      have hiff := ih h' q
      rw [List.cons_append, List.drop_succ_cons]
      constructor
      · intro hp
        have := hiff.mp hp
        simp [this]
      · intro hp
        refine hiff.mpr ?_
        simpa using hp

theorem countP_range_eq (K N : Nat) :
    (List.range N).countP (fun p => p == K) = if K < N then 1 else 0 := by
  induction N with
  | zero => simp
  | succ n ih =>
    rw [List.range_succ, List.countP_append, ih]
    by_cases hk : n = K
    · subst hk
      have h1 : ¬ n < n := by omega
      have h2 : n < n + 1 := by omega
      simp [h1, h2, List.countP_cons]
    · rw [List.countP_cons]
      simp only [List.countP_nil]
      have hb : (n == K) = false := by simpa using hk
      by_cases hkn : K < n
      · have h1 : K < n + 1 := by omega
        simp [hb, hkn, h1]
      · have h1 : ¬ K < n + 1 := by omega
        simp [hb, hkn, h1]

theorem occCount_append_marker (l : List Char) (h : hasNN l = false) :
    occCount truncMarker (l ++ truncMarker) = 1 := by
  unfold occCount
  have hiff := marker_occ_iff l h
  calc (List.range ((l ++ truncMarker).length + 1)).countP
        (fun p => truncMarker.isPrefixOf ((l ++ truncMarker).drop p))
      = (List.range ((l ++ truncMarker).length + 1)).countP (fun p => p == l.length) := by
        refine List.countP_congr ?_
        intro p _
        simp only [beq_iff_eq]
        exact hiff p
    _ = 1 := by
        rw [countP_range_eq]
        have h24 : truncMarker.length = 24 := rfl
        rw [List.length_append]
        have hlt : l.length < l.length + truncMarker.length + 1 := by omega
        simp [hlt]

theorem applyLimit_spec (maxLength : Nat) (t : List Char) (hNN : hasNN t = false) :
    (applyLimit maxLength t).length ≤ maxLength + truncMarker.length ∧
    ((applyLimit maxLength t).length = maxLength + truncMarker.length ↔ maxLength < t.length) ∧
    occCount truncMarker (applyLimit maxLength t) =
      if maxLength < t.length then 1 else 0 := by
  have hm : truncMarker.length = 24 := rfl
  by_cases h : maxLength < t.length
  · have happly : applyLimit maxLength t = t.take maxLength ++ truncMarker := by
      simp [applyLimit, h]
    have hlen : (t.take maxLength).length = maxLength := by
      rw [List.length_take]
      omega
    refine ⟨?_, ?_, ?_⟩
    · rw [happly, List.length_append, hlen]
    · rw [happly, List.length_append, hlen]
      simp [h]
    · rw [happly, if_pos h]
      exact occCount_append_marker _ (hasNN_take t maxLength hNN)
  · have happly : applyLimit maxLength t = t := by
      simp [applyLimit, h]
    have hle : t.length ≤ maxLength := by omega
    refine ⟨?_, ?_, ?_⟩
    · rw [happly]; omega
    · rw [happly]
      constructor
      · intro he; omega
      · intro hc; exact absurd hc h
    · rw [happly, if_neg h]
      exact occCount_zero t hNN

theorem collapseWsGo_no_newline : ∀ (l : List Char) (flag : Bool), '\n' ∉ collapseWsGo flag l := by
  intro l
  induction l with
  | nil => intro flag; simp [collapseWsGo]
  | cons c rest ih =>
    intro flag
    simp only [collapseWsGo]
    by_cases hc : pyIsSpace c = true
    · rw [if_pos hc]
      cases flag with
      | true => exact ih true
      | false =>
        intro hmem
        rcases List.mem_cons.mp hmem with he | hmem2
        · simp at he
        · exact ih true hmem2
    · rw [if_neg hc]
      intro hmem
      rcases List.mem_cons.mp hmem with he | hmem2
      · subst he
        exact hc (by decide)
      · exact ih false hmem2

theorem fallback_core_noNN (html : List Char) :
    hasNN (pyStrip (collapseWs (stripTagsRegex html))) = false := by
  refine noNN_of_not_mem _ ?_
  intro hmem
  exact collapseWsGo_no_newline (stripTagsRegex html) false
    (pyStrip_subset _ '\n' hmem)

/-! ### Claim C2 -/

/-- C2: on both execution paths of `extract_text_from_html` (parser
available, and regex fallback), the output length is at most
`maxLength + length(marker)`, it equals `maxLength + length(marker)`
exactly when the pre-truncation collapsed text exceeded `maxLength`, and
the truncation marker occurs in the output exactly once when truncation
happened and never otherwise. -/
theorem extract_length_and_marker (doc : Html) (html : List Char) (maxLength : Nat)
    (_hpos : 0 < maxLength) :
    ((extract_text_from_html doc maxLength).length ≤ maxLength + truncMarker.length ∧
      ((extract_text_from_html doc maxLength).length = maxLength + truncMarker.length ↔
        maxLength < (collapseText (visibleText doc)).length) ∧
      occCount truncMarker (extract_text_from_html doc maxLength) =
        if maxLength < (collapseText (visibleText doc)).length then 1 else 0) ∧
    ((fallback_extract html maxLength).length ≤ maxLength + truncMarker.length ∧
      ((fallback_extract html maxLength).length = maxLength + truncMarker.length ↔
        maxLength < (pyStrip (collapseWs (stripTagsRegex html))).length) ∧
      occCount truncMarker (fallback_extract html maxLength) =
        if maxLength < (pyStrip (collapseWs (stripTagsRegex html))).length then 1 else 0) :=
  ⟨applyLimit_spec maxLength _ (hasNN_collapseText (visibleText doc)),
    applyLimit_spec maxLength _ (fallback_core_noNN html)⟩

/-- C2 witness: the sample page with `maxLength = 5` is truncated to
length `5 + 24` with the marker occurring exactly once. -/
theorem extract_length_and_marker_witness :
    0 < 5 ∧
    ((extract_text_from_html doc0 5).length ≤ 5 + truncMarker.length ∧
      ((extract_text_from_html doc0 5).length = 5 + truncMarker.length ↔
        5 < (collapseText (visibleText doc0)).length) ∧
      occCount truncMarker (extract_text_from_html doc0 5) =
        if 5 < (collapseText (visibleText doc0)).length then 1 else 0) ∧
    ((fallback_extract ("x".toList) 5).length ≤ 5 + truncMarker.length ∧
      ((fallback_extract ("x".toList) 5).length = 5 + truncMarker.length ↔
        5 < (pyStrip (collapseWs (stripTagsRegex ("x".toList)))).length) ∧
      occCount truncMarker (fallback_extract ("x".toList) 5) =
        if 5 < (pyStrip (collapseWs (stripTagsRegex ("x".toList)))).length then 1
        else 0) :=
  ⟨by decide,
    (extract_length_and_marker doc0 ("x".toList) 5 (by decide)).1,
    (extract_length_and_marker doc0 ("x".toList) 5 (by decide)).2⟩

/-! ### Claim C3 -/

/-- C3 counterexample: on the fallback path (HTML parser unavailable),
`extract_text_from_html` keeps the text that lies inside a `<script>`
element: for `<script>zq</script>` the regex tag stripper returns the
script body `zq` itself, the very text the parser path would remove
(its `visibleText` is empty). -/
theorem fallback_keeps_banned_text :
    fallback_extract ("<script>zq</script>".toList) 50000 = "zq".toList ∧
    visibleText (Html.elem ("script".toList) (.cons (.text ("zq".toList)) .nil)) = [] ∧
    getTextH (Html.elem ("script".toList) (.cons (.text ("zq".toList)) .nil)) =
      "zq".toList :=
  ⟨by decide, by decide, by decide⟩

/-- C3 (amended): on the parser path, `extract_text_from_html` contains
no text from removed script/style/nav/footer/header elements: every
character of the output is a character of the text outside banned
elements, or the joining newline, or part of the truncation marker. The
fallback path does not have this property. -/
theorem extract_excludes_banned_tags (doc : Html) (maxLength : Nat) (c : Char)
    (hc : c ∈ extract_text_from_html doc maxLength) :
    c ∈ visibleText doc ∨ c = '\n' ∨ c ∈ truncMarker := by
  have hrw : extract_text_from_html doc maxLength =
      applyLimit maxLength (collapseText (visibleText doc)) := rfl
  rw [hrw] at hc
  unfold applyLimit at hc
  by_cases h : maxLength < (collapseText (visibleText doc)).length
  · rw [if_pos h] at hc
    rcases List.mem_append.mp hc with h1 | h2
    · have h3 : c ∈ collapseText (visibleText doc) := List.take_subset _ _ h1
      rcases collapseText_mem _ c h3 with h4 | h4
      · exact Or.inr (Or.inl h4)
      · exact Or.inl h4
    · exact Or.inr (Or.inr h2)
  · rw [if_neg h] at hc
    rcases collapseText_mem _ c hc with h4 | h4
    · exact Or.inr (Or.inl h4)
    · exact Or.inl h4

/-- C3 (amended) witness: the character `H` of the sample page's output
comes from text outside the banned elements. -/
theorem extract_excludes_banned_tags_witness :
    ('H' ∈ extract_text_from_html doc0 1000) ∧
    ('H' ∈ visibleText doc0 ∨ 'H' = '\n' ∨ 'H' ∈ truncMarker) :=
  ⟨by decide, extract_excludes_banned_tags doc0 1000 'H' (by decide)⟩

/-! ### Claim C8 -/

/-- C8 counterexample: with `maxLength = 3` and the text `abcdefgh`,
truncation appends the marker `"\n\n[Content truncated...]"`, so the
returned string does contain two consecutive newline characters. -/
theorem extract_blank_run_counterexample :
    0 < 3 ∧ hasNN (extract_text_from_html (Html.text ("abcdefgh".toList)) 3) = true :=
  ⟨by decide, by decide⟩

/-- C8 (amended): the collapsed text rejoined with single newlines never
contains two consecutive newline characters; when no truncation occurs
this is the whole output, and when truncation occurs the kept prefix is
still free of consecutive newlines — the only blank-line run in a
truncated output is the one opening the appended marker. -/
theorem collapse_no_blank_runs (doc : Html) (maxLength : Nat) :
    hasNN (collapseText (visibleText doc)) = false ∧
    (¬ maxLength < (collapseText (visibleText doc)).length →
      extract_text_from_html doc maxLength = collapseText (visibleText doc) ∧
      hasNN (extract_text_from_html doc maxLength) = false) ∧
    (maxLength < (collapseText (visibleText doc)).length →
      extract_text_from_html doc maxLength =
        (collapseText (visibleText doc)).take maxLength ++ truncMarker ∧
      hasNN ((collapseText (visibleText doc)).take maxLength) = false) := by
  have hNN := hasNN_collapseText (visibleText doc)
  refine ⟨hNN, ?_, ?_⟩
  · intro h
    have he : extract_text_from_html doc maxLength = collapseText (visibleText doc) := by
      show applyLimit maxLength (collapseText (visibleText doc)) = _
      simp [applyLimit, h]
    exact ⟨he, by rw [he]; exact hNN⟩
  · intro h
    refine ⟨?_, hasNN_take _ _ hNN⟩
    show applyLimit maxLength (collapseText (visibleText doc)) = _
    simp [applyLimit, h]

/-- C8 (amended) witness: the sample page's collapsed text has no
consecutive newlines, and with `maxLength = 1000` no truncation occurs
so the whole output is free of them. -/
theorem collapse_no_blank_runs_witness :
    hasNN (collapseText (visibleText doc0)) = false ∧
    (¬ 1000 < (collapseText (visibleText doc0)).length) ∧
    extract_text_from_html doc0 1000 = collapseText (visibleText doc0) ∧
    hasNN (extract_text_from_html doc0 1000) = false :=
  ⟨(collapse_no_blank_runs doc0 1000).1, by decide,
    ((collapse_no_blank_runs doc0 1000).2.1 (by decide)).1,
    ((collapse_no_blank_runs doc0 1000).2.1 (by decide)).2⟩

end WebSearch
